import Mathlib

/-!
Verification development for the Feishu file downloader
(`skills/customer-visit-analysis/scripts/feishu_download_files.py`).

The script is a linear sequence of HTTP request/response calls, a recursive
directory walk over the remote folder tree, and a fixed-interval poll loop
for asynchronous export jobs.  We embed it shallowly:

* pure string manipulation (`sanitize_filename`, the extension logic of
  `process_file`) becomes pure functions on `List Char` / `String`;
* the HTTP environment becomes an oracle record `Env`; every network side
  effect is recorded as an event (`Ev`) in an explicit trace, including the
  `Authorization` header value that the code attaches to each request;
* the paging loop of `list_files_in_folder` and the poll loop of
  `query_export_task` are embedded with explicit fuel: for the poll loop the
  fuel *is* the `max_wait` bound (one unit of fuel per one-second sleep),
  for the paging loop termination is a hypothesis on the server's page chain.
-/

namespace Feishu

/-! ## sanitize_filename (source lines 88-96) -/

/-- Characters replaced by an underscore (source line 91). -/
def invalidChars : List Char := ['<', '>', ':', '"', '/', '\\', '|', '?', '*']

/-- One pass of the replacement loop of lines 92-93: an invalid character
becomes an underscore, everything else is kept. -/
def replaceInvalid (c : Char) : Char := if c ∈ invalidChars then '_' else c

/-- Whitespace in the sense of Python's `str.strip()` (the characters for
which `str.isspace()` holds).  The code points below 32 among them are
listed for faithfulness even though line 95 already removed them. -/
def pyIsSpace (c : Char) : Bool :=
  (9 ≤ c.toNat && c.toNat ≤ 13) || (28 ≤ c.toNat && c.toNat ≤ 31) ||
  c.toNat == 32 || c.toNat == 0x85 || c.toNat == 0xA0 || c.toNat == 0x1680 ||
  (0x2000 ≤ c.toNat && c.toNat ≤ 0x200A) || c.toNat == 0x2028 ||
  c.toNat == 0x2029 || c.toNat == 0x202F || c.toNat == 0x205F ||
  c.toNat == 0x3000

/-- Python `str.strip()`: remove leading and trailing whitespace. -/
def strip (l : List Char) : List Char :=
  ((l.dropWhile pyIsSpace).reverse.dropWhile pyIsSpace).reverse

/-- Body of `sanitize_filename` on character lists: replace the invalid
characters (lines 92-93), remove control characters (line 95), strip, and
fall back to `"unnamed_file"` when the result is empty (line 96). -/
def sanitizeChars (s : List Char) : List Char :=
  let s1 := s.map replaceInvalid
  let s2 := s1.filter (fun c => 32 ≤ c.toNat)
  let s3 := strip s2
  if s3 = [] then "unnamed_file".data else s3

/-- The function `sanitize_filename` of the source. -/
def sanitize_filename (s : String) : String := ⟨sanitizeChars s.data⟩

/-! ## The extension logic of process_file (source lines 42-61 and 278-292) -/

/-- ASCII lowercasing of a character list, modelling Python `str.lower()`
on the ASCII inputs the script deals in. -/
def lowerChars (l : List Char) : List Char := l.map Char.toLower

/-- String wrapper for `lowerChars`. -/
def strToLower (s : String) : String := ⟨lowerChars s.data⟩

/-- The `TYPE_TO_EXT` dictionary of lines 43-61, in source order. -/
def TYPE_TO_EXT : List (String × String) :=
  [("docx", ".docx"), ("doc", ".doc"), ("xlsx", ".xlsx"), ("xls", ".xls"),
   ("pptx", ".pptx"), ("ppt", ".ppt"), ("pdf", ".pdf"), ("txt", ".txt"),
   ("jpg", ".jpg"), ("jpeg", ".jpg"), ("png", ".png"), ("gif", ".gif"),
   ("bmp", ".bmp"), ("mp4", ".mp4"), ("mp3", ".mp3"), ("zip", ".zip"),
   ("rar", ".rar")]

/-- Python `TYPE_TO_EXT.get(key, "")`. -/
def typeToExtGet (key : String) : String :=
  match TYPE_TO_EXT.find? (fun p => p.1 == key) with
  | some p => p.2
  | none => ""

/-- Python `pathlib.Path(name).suffix` for a single path component: the part
from the last dot, provided that dot is neither the first nor the last
character; otherwise the empty string. -/
def pathSuffix (l : List Char) : List Char :=
  match l.reverse.findIdx? (· = '.') with
  | none => []
  | some k => if 0 < k ∧ k < l.length - 1 then l.drop (l.length - 1 - k) else []

/-- Lines 279-286: the extension chosen for a file, from the (lowercased)
file type via `TYPE_TO_EXT`, else the name's own suffix, else `".bin"`
(the suffix fallback only runs for a non-empty name, as in line 280). -/
def extensionFor (ty : String) (name : List Char) : List Char :=
  let e := (typeToExtGet (strToLower ty)).data
  if e = [] ∧ name ≠ [] then
    let ex := pathSuffix name
    if ex ≠ [] then ex else ".bin".data
  else e

/-- Lines 289-290: append the extension unless the name already ends with it
case-insensitively (`file_name.lower().endswith(extension.lower())`). -/
def finalFileName (ty : String) (name : List Char) : List Char :=
  let ext := extensionFor ty name
  if (lowerChars ext).isSuffixOf (lowerChars name) then name else name ++ ext

/-! ## The HTTP layer as a trace model

Every network side effect of the script becomes an event.  API requests
carry the value of the `Authorization` header the code attaches via
`get_headers(token)`; the raw content download of `download_file` (line
167) sends no such header, matching the source. -/

/-- Authorization header value built by `get_headers` (lines 80-85). -/
def get_headers (token : String) : String := "Bearer " ++ token

/-- One observable side effect of the script. -/
inductive Ev where
  | authRequest : Ev
  | printProcessing (name ty : String) : Ev
  | mkdirDir (path : List String) : Ev
  | listRequest (folderTok : String) (pageSize : Nat) (pageTok : Option String)
      (hdr : String) : Ev
  | downloadUrlRequest (fileTok : String) (hdr : String) : Ev
  | rawDownload (url : String) : Ev
  | createExportRequest (fileTok ty ext : String) (hdr : String) : Ev
  | queryExportRequest (ticket fileTok : String) (hdr : String) : Ev
  | exportDownloadRequest (etok : Option String) (hdr : String) : Ev
  | writeLocal (path : List String) : Ev
  | printError (msg : String) : Ev
  | abortRun (msg : String) : Ev
deriving DecidableEq, Repr

/-- The Authorization header an event carries, when it is an API request
built with `get_headers`. -/
def hdrVal : Ev → Option String
  | .listRequest _ _ _ h => some h
  | .downloadUrlRequest _ h => some h
  | .createExportRequest _ _ _ h => some h
  | .queryExportRequest _ _ h => some h
  | .exportDownloadRequest _ h => some h
  | _ => none

/-- Event class tests used to state which download workflow ran. -/
def isDirectReq : Ev → Bool
  | .downloadUrlRequest _ _ => true
  | _ => false

def isExportReq : Ev → Bool
  | .createExportRequest _ _ _ _ => true
  | _ => false

def isAuthReq : Ev → Bool
  | .authRequest => true
  | _ => false

def mkdirPathOf : Ev → Option (List String)
  | .mkdirDir p => some p
  | _ => none

/-- One JSON response of the export-task status endpoint (lines 211-231):
`code`/`msg` at top level, `job_status`, `file_token` and `job_error_msg`
inside `data.result`, `task_status` inside `data` (older API format). -/
structure PollResp where
  code : Int
  msg : String
  job_status : Option Int
  file_token : Option String
  job_error_msg : Option String
  task_status : Option String
deriving DecidableEq, Repr

/-- Python `str(x)` for the optional `job_error_msg`, as interpolated into
the exception message of line 224. -/
def optStr : Option String → String
  | some s => s
  | none => "None"

/-- How one poll response is classified by lines 213-231: `some r` means the
loop ends with result `r`, `none` means the loop sleeps one second and
retries. -/
def stepOutcome (r : PollResp) : Option (Except String (Option String)) :=
  if r.code ≠ 0 then some (.error ("Failed to query export task: " ++ r.msg))
  else
    match r.job_status with
    | some 0 => some (.ok r.file_token)
    | some 2 => some (.error ("Export task failed: " ++ optStr r.job_error_msg))
    | some _ => none
    | none =>
      match r.task_status with
      | some "done" => some (.ok r.file_token)
      | some "failed" => some (.error "Export task failed")
      | _ => none

/-- The `max_wait=60` default of line 201. -/
def defaultMaxWait : Nat := 60

/-- The poll loop of `query_export_task` (lines 205-236).  `resp i` is the
response to the `i`-th status request.  Each iteration ends with
`time.sleep(1)`, so iteration `i` runs exactly when `i < max_wait` seconds
have elapsed: the remaining fuel is `maxWait - i`.  Returns the list of
issued status requests and the result. -/
def pollLoop (t : String) (resp : Nat → PollResp) (ticket ftok : String) :
    Nat → Nat → List Ev × Except String (Option String)
  | _, 0 => ([], .error "Export task timed out")
  | i, fuel + 1 =>
    let ev : Ev := .queryExportRequest ticket ftok (get_headers t)
    match stepOutcome (resp i) with
    | some r => ([ev], r)
    | none =>
      let x := pollLoop t resp ticket ftok (i + 1) fuel
      (ev :: x.1, x.2)

/-- The function `query_export_task` of the source. -/
def query_export_task (t : String) (resp : Nat → PollResp) (ticket ftok : String)
    (maxWait : Nat) : List Ev × Except String (Option String) :=
  pollLoop t resp ticket ftok 0 maxWait

/-- The file-type list of the export branch (line 297). -/
def docTypes : List String :=
  ["doc", "docx", "xlsx", "xls", "pptx", "ppt", "pdf", "sheet", "slide",
   "bitable"]

/-- The file-type list of the direct-download branch (line 306). -/
def binTypes : List String :=
  ["jpg", "jpeg", "png", "gif", "bmp", "mp4", "mp3", "zip", "rar"]

/-- The HTTP oracle: outcome of each endpoint the script calls.  `poll`
takes the ticket and the poll iteration index. -/
structure Env where
  auth : Except String String
  listOk : String → Bool
  downloadUrl : String → Except String String
  fetch : String → Except String Unit
  createExport : String → String → String → Except String String
  poll : String → Nat → PollResp
  fetchExport : Option String → Except String Unit

/-- Line 300/324: `extension.lstrip('.') if extension else file_type`. -/
def extApiOf (ty : String) (ext : List Char) : String :=
  if ext ≠ [] then ⟨ext.dropWhile (· = '.')⟩ else ty

/-- The direct-download workflow (lines 308-309 / 315-316):
`get_file_download_url` then `download_file`.  Returns the trace and the
error, if any, that the enclosing `try` would catch. -/
def directFlow (t : String) (env : Env) (ftok : String) (path : List String) :
    List Ev × Option String :=
  match env.downloadUrl ftok with
  | .error e => ([.downloadUrlRequest ftok (get_headers t)],
      some ("Failed to get download URL: " ++ e))
  | .ok url =>
    match env.fetch url with
    | .error e => ([.downloadUrlRequest ftok (get_headers t), .rawDownload url],
        some e)
    | .ok _ => ([.downloadUrlRequest ftok (get_headers t), .rawDownload url,
        .writeLocal path], none)

/-- The export workflow (lines 300-303 / 324-327): `create_export_task`,
then `query_export_task` with the default `max_wait`, then
`download_exported_file`. -/
def exportFlow (t : String) (env : Env) (ftok ty : String) (ext : List Char)
    (path : List String) : List Ev × Option String :=
  let extApi := extApiOf ty ext
  let cev : Ev := .createExportRequest ftok ty extApi (get_headers t)
  match env.createExport ftok ty extApi with
  | .error e => ([cev], some ("Failed to create export task: " ++ e))
  | .ok ticket =>
    let q := query_export_task t (env.poll ticket) ticket ftok defaultMaxWait
    match q.2 with
    | .error e => (cev :: q.1, some e)
    | .ok etok =>
      match env.fetchExport etok with
      | .error e => (cev :: q.1 ++ [.exportDownloadRequest etok (get_headers t)],
          some e)
      | .ok _ => (cev :: q.1 ++ [.exportDownloadRequest etok (get_headers t),
          .writeLocal path], none)

/-- A node of the remote drive as the listing endpoint reports it: name,
type and token, plus (for folders) the items a successful listing returns. -/
inductive Item where
  | mk (name ty tok : String) (children : List Item) : Item
deriving Repr

/-!
The function `process_file` (lines 255-333) and its recursion over a
folder listing, producing the event trace.  The folder branch (lines
264-276) creates the sanitized subdirectory, lists the folder inside a
`try`, and recurses; the non-folder branch computes the output name
(lines 278-292) and dispatches on the file type (lines 295-333), with the
outer `try` turning any workflow error into a printed message.
-/
/-- The dispatch of lines 295-331 for a non-folder file: export workflow
for the native document types (matched on the lowercased type, line 297),
direct download for the binary types (matched exactly, line 306), and for
any other type a direct-download attempt whose failure is caught and
followed by an export-task fallback whose failure is also caught (lines
312-330).  Returns the trace and the error, if any, that reaches the outer
`try` of line 295. -/
def downloadStep (t : String) (env : Env) (dir : List String)
    (n ty tok : String) : List Ev × Option String :=
  let ext := extensionFor ty (sanitize_filename n).data
  let path := dir ++ [(⟨finalFileName ty (sanitize_filename n).data⟩ : String)]
  if strToLower ty ∈ docTypes then exportFlow t env tok ty ext path
  else if ty ∈ binTypes then directFlow t env tok path
  else
    let d := directFlow t env tok path
    match d.2 with
    | none => (d.1, none)
    | some e =>
      let x := exportFlow t env tok ty ext path
      (d.1 ++ Ev.printError ("Failed to download using download API: " ++ e) ::
        x.1 ++
        (match x.2 with
         | some e2 => [Ev.printError ("Export task also failed: " ++ e2)]
         | none => []), none)

mutual

def process_file (t : String) (env : Env) (dir : List String) : Item → List Ev
  | .mk name ty tok children =>
    let fname : String := sanitize_filename name
    let pp : Ev := .printProcessing fname ty
    if ty = "folder" then
      let sub := dir ++ [fname]
      pp :: .mkdirDir sub ::
        (if env.listOk tok then
          Ev.listRequest tok 50 none (get_headers t) ::
            process_list t env sub children
        else
          [Ev.listRequest tok 50 none (get_headers t),
           Ev.printError "Error processing folder"])
    else
      let r := downloadStep t env dir name ty tok
      pp :: (match r.2 with
             | none => r.1
             | some e => r.1 ++ [Ev.printError ("Error processing file: " ++ e)])

def process_list (t : String) (env : Env) (dir : List String) :
    List Item → List Ev
  | [] => []
  | it :: rest => process_file t env dir it ++ process_list t env dir rest

end

/-!
Reference function for the directory mirroring of C3: the local
directories the walk should create, one per remote folder node, each named
after the sanitized folder name under its parent's directory.
-/
mutual

def folderPaths (dir : List String) : Item → List (List String)
  | .mk name ty _ children =>
    if ty = "folder" then
      (dir ++ [sanitize_filename name]) ::
        folderPathsList (dir ++ [sanitize_filename name]) children
    else []

def folderPathsList (dir : List String) : List Item → List (List String)
  | [] => []
  | it :: rest => folderPaths dir it ++ folderPathsList dir rest

end

/-- The function `main` (lines 336-390): authenticate, create the output
directory, list the top folder (not inside any `try`: a failure aborts),
then process every returned item. -/
def mainRun (env : Env) (folderTok : String) (outDir : List String)
    (items : List Item) : List Ev :=
  match env.auth with
  | .error e => [.authRequest, .abortRun ("Failed to get access token: " ++ e)]
  | .ok t =>
    .authRequest :: .mkdirDir outDir ::
      (if env.listOk folderTok then
        Ev.listRequest folderTok 50 none (get_headers t) ::
          process_list t env outDir items
      else
        [Ev.listRequest folderTok 50 none (get_headers t),
         Ev.abortRun "Failed to list files"])

/-! ## The paging loop of list_files_in_folder (source lines 99-132)

The server is an oracle from the optional `page_token` request parameter to
a response.  The loop requests pages of size 50; an empty accumulated
`page_token` means the parameter is omitted (line 109: `if page_token:`).
Termination is not guaranteed by the code (a server that always reports
`has_more` keeps it looping), so the embedding takes fuel; the theorem
assumes the server's page chain reaches `has_more = false`. -/

/-- One JSON response of the listing endpoint: `code`/`msg` at top level,
`files`, `has_more` and `page_token` inside `data` (lines 120-130).  The
items are left opaque. -/
structure ListResp where
  code : Int
  msg : String
  files : List String
  has_more : Bool
  page_token : String
deriving DecidableEq, Repr

/-- The `page_token` request parameter: omitted when the accumulated token
is empty (lines 109-110). -/
def reqTok (ptok : String) : Option String :=
  if ptok = "" then none else some ptok

/-- Body of the `while True` loop of lines 104-130, with fuel. -/
def list_files_aux (t : String) (srv : Option String → ListResp)
    (ftok : String) : Nat → String → List Ev × Except String (List String)
  | 0, _ => ([], .error "fuel exhausted")
  | fuel + 1, ptok =>
    let req : Ev := .listRequest ftok 50 (reqTok ptok) (get_headers t)
    let resp := srv (reqTok ptok)
    if resp.code ≠ 0 then ([req], .error ("Failed to list files: " ++ resp.msg))
    else if resp.has_more then
      let x := list_files_aux t srv ftok fuel resp.page_token
      (req :: x.1, x.2.map (resp.files ++ ·))
    else ([req], .ok resp.files)

/-- The function `list_files_in_folder` of the source: the loop started
with an empty `page_token` (line 102). -/
def list_files_in_folder (t : String) (srv : Option String → ListResp)
    (ftok : String) (fuel : Nat) : List Ev × Except String (List String) :=
  list_files_aux t srv ftok fuel ""

/-- The accumulated `page_token` before the `n`-th request, following the
chain of server responses. -/
def chainTok (srv : Option String → ListResp) : Nat → String
  | 0 => ""
  | n + 1 => (srv (reqTok (chainTok srv n))).page_token

/-- The `n`-th response in the server's page chain. -/
def pageAt (srv : Option String → ListResp) (n : Nat) : ListResp :=
  srv (reqTok (chainTok srv n))

/-- The requests the paging loop issues while walking the server's page
chain from position `j` through `j + n`: every page is requested with page
size 50, the previous response's `page_token`, and the bearer header. -/
def chainReqs (srv : Option String → ListResp) (t ftok : String) :
    Nat → Nat → List Ev
  | j, 0 => [.listRequest ftok 50 (reqTok (chainTok srv j)) (get_headers t)]
  | j, n + 1 => .listRequest ftok 50 (reqTok (chainTok srv j)) (get_headers t) ::
      chainReqs srv t ftok (j + 1) n

/-- The items of pages `j` through `j + n` of the chain, concatenated in
page order. -/
def chainFiles (srv : Option String → ListResp) : Nat → Nat → List String
  | j, 0 => (pageAt srv j).files
  | j, n + 1 => (pageAt srv j).files ++ chainFiles srv (j + 1) n

/-! ### Concrete fixtures used by the witnesses -/

/-- A two-page server: the first page holds two items and points at
`"p1"`, the second holds one item and is final. -/
def srvTwoPages : Option String → ListResp
  | none => ⟨0, "", ["a", "b"], true, "p1"⟩
  | some s => if s = "p1" then ⟨0, "", ["c"], false, ""⟩ else ⟨1, "bad", [], false, ""⟩

/-- A poll response reporting immediate success. -/
def okPoll : PollResp := ⟨0, "", some 0, some "etok", none, none⟩

/-- An environment in which every endpoint succeeds. -/
def envOk : Env where
  auth := .ok "tok"
  listOk := fun _ => true
  downloadUrl := fun _ => .ok "u1"
  fetch := fun _ => .ok ()
  createExport := fun _ _ _ => .ok "tic"
  poll := fun _ _ => okPoll
  fetchExport := fun _ => .ok ()

/-- Like `envOk` but the direct-download endpoint fails. -/
def envDirectFail : Env :=
  { envOk with downloadUrl := fun _ => .error "boom" }

/-- Like `envOk` but both download endpoints and the export creation
fail, and listing fails. -/
def envAllFail : Env :=
  { envOk with
    downloadUrl := fun _ => .error "boom"
    createExport := fun _ _ _ => .error "no"
    listOk := fun _ => false }

/-! ## Theorems -/

/-! ### Helper lemmas about `sanitizeChars` -/

theorem mem_map_replaceInvalid {c : Char} {l : List Char}
    (h : c ∈ l.map replaceInvalid) : c ∉ invalidChars := by
  rcases List.mem_map.1 h with ⟨a, _, rfl⟩
  unfold replaceInvalid
  split
  · decide
  · assumption

theorem strip_sublist (l : List Char) : List.Sublist (strip l) l := by
  unfold strip
  have h1 : List.Sublist ((l.dropWhile pyIsSpace).reverse.dropWhile pyIsSpace).reverse
      (l.dropWhile pyIsSpace).reverse.reverse := (List.dropWhile_sublist _).reverse
  rw [List.reverse_reverse] at h1
  exact h1.trans (List.dropWhile_sublist _)

theorem mem_strip {c : Char} {l : List Char} (h : c ∈ strip l) : c ∈ l :=
  (strip_sublist l).mem h

theorem head_dropWhile_not {p : Char → Bool} {l : List Char} {c : Char}
    (h : (l.dropWhile p).head? = some c) : p c = false := by
  induction l with
  | nil => simp [List.dropWhile] at h
  | cons a as ih =>
    by_cases hp : p a
    · rw [List.dropWhile_cons_of_pos hp] at h
      exact ih h
    · rw [List.dropWhile_cons_of_neg hp] at h
      simp at h
      subst h
      simpa using hp

theorem getLast_dropWhile_eq {p : Char → Bool} {l : List Char}
    (h : l.dropWhile p ≠ []) : (l.dropWhile p).getLast? = l.getLast? := by
  induction l with
  | nil => simp [List.dropWhile] at h
  | cons a as ih =>
    by_cases hp : p a
    · rw [List.dropWhile_cons_of_pos hp] at h ⊢
      have hne : as ≠ [] := by
        intro hnil
        subst hnil
        simp [List.dropWhile] at h
      rw [ih h]
      cases as with
      | nil => exact absurd rfl hne
      | cons b bs => rw [List.getLast?_cons_cons]
    · rw [List.dropWhile_cons_of_neg hp]

/-- The head of a stripped list is not whitespace. -/
theorem strip_head_not {l : List Char} {c : Char}
    (h : (strip l).head? = some c) : pyIsSpace c = false := by
  unfold strip at h
  set l1 := l.dropWhile pyIsSpace with hl1
  set r2 := l1.reverse.dropWhile pyIsSpace with hr2
  have hne : r2 ≠ [] := by
    intro hnil
    rw [hnil] at h
    simp at h
  rw [List.head?_reverse] at h
  rw [hr2, getLast_dropWhile_eq (hr2 ▸ hne), List.getLast?_reverse] at h
  exact head_dropWhile_not (p := pyIsSpace) h

/-- The last element of a stripped list is not whitespace. -/
theorem strip_getLast_not {l : List Char} {c : Char}
    (h : (strip l).getLast? = some c) : pyIsSpace c = false := by
  unfold strip at h
  rw [List.getLast?_reverse] at h
  exact head_dropWhile_not (p := pyIsSpace) h

theorem dropWhile_eq_self_of_head {p : Char → Bool} {l : List Char}
    (h : ∀ c, l.head? = some c → p c = false) : l.dropWhile p = l := by
  cases l with
  | nil => simp [List.dropWhile]
  | cons a as =>
    have ha : p a = false := h a rfl
    exact List.dropWhile_cons_of_neg (by simp [ha])

/-- Stripping a list whose ends are not whitespace does nothing. -/
theorem strip_eq_self {l : List Char}
    (hh : ∀ c, l.head? = some c → pyIsSpace c = false)
    (hl : ∀ c, l.getLast? = some c → pyIsSpace c = false) : strip l = l := by
  unfold strip
  rw [dropWhile_eq_self_of_head hh]
  rw [dropWhile_eq_self_of_head (by
    intro c hc
    rw [List.head?_reverse] at hc
    exact hl c hc)]
  exact List.reverse_reverse l

theorem map_eq_self_of_mem {f : Char → Char} {l : List Char}
    (h : ∀ c ∈ l, f c = c) : l.map f = l := by
  induction l with
  | nil => rfl
  | cons a as ih =>
    simp only [List.map_cons]
    rw [h a (by simp), ih (fun c hc => h c (by simp [hc]))]

/-- Master lemma: the output of `sanitizeChars` has no invalid character, no
control character, no whitespace at either end, and is non-empty. -/
theorem sanitizeChars_facts (s : List Char) :
    (∀ c ∈ sanitizeChars s, c ∉ invalidChars ∧ 32 ≤ c.toNat) ∧
    (∀ c, (sanitizeChars s).head? = some c → pyIsSpace c = false) ∧
    (∀ c, (sanitizeChars s).getLast? = some c → pyIsSpace c = false) ∧
    sanitizeChars s ≠ [] := by
  unfold sanitizeChars
  set s1 := s.map replaceInvalid with hs1
  set s2 := s1.filter (fun c => 32 ≤ c.toNat) with hs2
  set s3 := strip s2 with hs3
  by_cases hempty : s3 = []
  · rw [if_pos hempty]
    refine ⟨?_, ?_, ?_, ?_⟩ <;> decide
  · rw [if_neg hempty]
    refine ⟨?_, ?_, ?_, hempty⟩
    · intro c hc
      have hc2 : c ∈ s2 := mem_strip (hs3 ▸ hc)
      have hc1 : c ∈ s1 := List.mem_of_mem_filter hc2
      refine ⟨mem_map_replaceInvalid (hs1 ▸ hc1), ?_⟩
      have := List.of_mem_filter hc2
      simpa using this
    · intro c hc
      exact strip_head_not (hs3 ▸ hc)
    · intro c hc
      exact strip_getLast_not (hs3 ▸ hc)

theorem replaceInvalid_eq_self {c : Char} (h : c ∉ invalidChars) :
    replaceInvalid c = c := by
  unfold replaceInvalid
  exact if_neg h

/-- Running the body of `sanitize_filename` on an already-sanitized name
changes nothing. -/
theorem sanitizeChars_idem (s : List Char) :
    sanitizeChars (sanitizeChars s) = sanitizeChars s := by
  obtain ⟨hmem, hh, hl, hne⟩ := sanitizeChars_facts s
  set r := sanitizeChars s with hr
  have h1 : r.map replaceInvalid = r :=
    map_eq_self_of_mem (fun c hc => replaceInvalid_eq_self (hmem c hc).1)
  have h2 : r.filter (fun c => 32 ≤ c.toNat) = r :=
    List.filter_eq_self.2 (fun c hc => by
      have := (hmem c hc).2
      simpa using this)
  have h3 : strip r = r := strip_eq_self hh hl
  show (if strip ((r.map replaceInvalid).filter (fun c => 32 ≤ c.toNat)) = []
      then "unnamed_file".data
      else strip ((r.map replaceInvalid).filter (fun c => 32 ≤ c.toNat))) = r
  rw [h1, h2, h3, if_neg hne]

/-- C8: `sanitize_filename` returns a string free of the invalid characters
`< > : " / \ | ? *`, free of control characters (code points below 32), with
no leading or trailing whitespace, and non-empty. -/
theorem C8_sanitize_filename_safe (s : String) :
    (∀ c ∈ (sanitize_filename s).data, c ∉ invalidChars ∧ 32 ≤ c.toNat) ∧
    (∀ c, (sanitize_filename s).data.head? = some c → pyIsSpace c = false) ∧
    (∀ c, (sanitize_filename s).data.getLast? = some c → pyIsSpace c = false) ∧
    (sanitize_filename s).data ≠ [] :=
  sanitizeChars_facts s.data

/-- Witness for C8 at the concrete input `"  a<b. "` (which sanitizes to
`"a_b."`): the result is non-empty, its head is not whitespace, and its
underscore is not an invalid character. -/
theorem C8_sanitize_filename_safe_witness :
    (sanitize_filename "  a<b. ").data ≠ [] ∧
    pyIsSpace 'a' = false ∧ '_' ∉ invalidChars := by
  refine ⟨(C8_sanitize_filename_safe "  a<b. ").2.2.2,
    (C8_sanitize_filename_safe "  a<b. ").2.1 'a' (by decide),
    ((C8_sanitize_filename_safe "  a<b. ").1 '_' (by decide)).1⟩

/-- C9: `sanitize_filename` is idempotent. -/
theorem C9_sanitize_filename_idem (s : String) :
    sanitize_filename (sanitize_filename s) = sanitize_filename s := by
  unfold sanitize_filename
  apply congrArg String.mk
  exact sanitizeChars_idem s.data

/-- The extension precedence of lines 279-286 for a non-empty name:
`TYPE_TO_EXT` value first, then the name's own suffix, then `".bin"`. -/
theorem extensionFor_eq (ty : String) (name : List Char) (hname : name ≠ []) :
    extensionFor ty name =
      (if (typeToExtGet (strToLower ty)).data ≠ []
        then (typeToExtGet (strToLower ty)).data
        else if pathSuffix name ≠ [] then pathSuffix name else ".bin".data) := by
  by_cases hcase : (typeToExtGet (strToLower ty)).data = []
  · simp [extensionFor, hcase, hname]
  · simp [extensionFor, hcase]

/-- The chosen extension is never empty for a non-empty name. -/
theorem extensionFor_ne_nil (ty : String) (name : List Char)
    (hname : name ≠ []) : extensionFor ty name ≠ [] := by
  rw [extensionFor_eq ty name hname]
  by_cases h1 : (typeToExtGet (strToLower ty)).data = []
  · rw [if_neg (by simp [h1])]
    by_cases h2 : pathSuffix name = []
    · rw [if_neg (by simp [h2])]
      decide
    · rw [if_pos h2]
      exact h2
  · rw [if_pos h1]
    exact h1

/-- C10: for a sanitized name the chosen extension is non-empty and follows
the precedence `TYPE_TO_EXT` value, existing suffix, `".bin"`; the final
name is the name itself exactly when it already ends with the extension
case-insensitively, and otherwise the name with the extension appended
once; in both cases the final name ends with the extension
case-insensitively. -/
theorem C10_extension_appended_once (ty s : String) :
    extensionFor ty (sanitize_filename s).data ≠ [] ∧
    extensionFor ty (sanitize_filename s).data =
      (if (typeToExtGet (strToLower ty)).data ≠ []
        then (typeToExtGet (strToLower ty)).data
        else if pathSuffix (sanitize_filename s).data ≠ []
          then pathSuffix (sanitize_filename s).data
          else ".bin".data) ∧
    ((lowerChars (extensionFor ty (sanitize_filename s).data)).isSuffixOf
        (lowerChars (sanitize_filename s).data) = true →
      finalFileName ty (sanitize_filename s).data = (sanitize_filename s).data) ∧
    ((lowerChars (extensionFor ty (sanitize_filename s).data)).isSuffixOf
        (lowerChars (sanitize_filename s).data) = false →
      finalFileName ty (sanitize_filename s).data =
        (sanitize_filename s).data ++ extensionFor ty (sanitize_filename s).data) ∧
    (lowerChars (extensionFor ty (sanitize_filename s).data)).isSuffixOf
      (lowerChars (finalFileName ty (sanitize_filename s).data)) = true := by
  have hname : (sanitize_filename s).data ≠ [] := (sanitizeChars_facts s.data).2.2.2
  set name := (sanitize_filename s).data with hn
  refine ⟨extensionFor_ne_nil ty name hname, extensionFor_eq ty name hname,
    ?_, ?_, ?_⟩
  · intro hsuf
    simp only [finalFileName]
    rw [if_pos hsuf]
  · intro hsuf
    simp only [finalFileName]
    rw [if_neg (by simp [hsuf])]
  · by_cases hsuf :
      (lowerChars (extensionFor ty name)).isSuffixOf (lowerChars name) = true
    · simp only [finalFileName]
      rw [if_pos hsuf]
      exact hsuf
    · simp only [finalFileName]
      rw [if_neg hsuf]
      unfold lowerChars
      rw [List.map_append]
      simp [List.isSuffixOf]

/-- Witness for C10 at the concrete type `"docx"` and name `"Report"`. -/
theorem C10_extension_appended_once_witness :
    finalFileName "docx" (sanitize_filename "Report").data =
      "Report.docx".data := by
  have h := C10_extension_appended_once "docx" "Report"
  have hsuf : (lowerChars (extensionFor "docx" (sanitize_filename "Report").data)).isSuffixOf
      (lowerChars (sanitize_filename "Report").data) = false := by decide
  rw [h.2.2.2.1 hsuf]
  decide

/-! ## C6: the export poll loop terminates -/

theorem pollLoop_len_le (t : String) (resp : Nat → PollResp)
    (ticket ftok : String) :
    ∀ fuel i, (pollLoop t resp ticket ftok i fuel).1.length ≤ fuel := by
  intro fuel
  induction fuel with
  | zero => intro i; simp [pollLoop]
  | succ f ih =>
    intro i
    simp only [pollLoop]
    cases h : stepOutcome (resp i) with
    | some r => simp
    | none =>
      simp only [List.length_cons]
      exact Nat.succ_le_succ (ih (i + 1))

theorem pollLoop_all_none (t : String) (resp : Nat → PollResp)
    (ticket ftok : String) :
    ∀ fuel i, (∀ j, j < fuel → stepOutcome (resp (i + j)) = none) →
    pollLoop t resp ticket ftok i fuel =
      (List.replicate fuel (Ev.queryExportRequest ticket ftok (get_headers t)),
       .error "Export task timed out") := by
  intro fuel
  induction fuel with
  | zero => intro i _; simp [pollLoop]
  | succ f ih =>
    intro i h
    have h0 : stepOutcome (resp i) = none := by
      have := h 0 (Nat.succ_pos f)
      simpa using this
    simp only [pollLoop, h0]
    rw [ih (i + 1) (fun j hj => by
      have h2 := h (j + 1) (Nat.succ_lt_succ hj)
      have e : i + (j + 1) = i + 1 + j := by omega
      rwa [e] at h2)]
    simp [List.replicate_succ]

theorem pollLoop_terminal (t : String) (resp : Nat → PollResp)
    (ticket ftok : String) :
    ∀ k fuel i r, k < fuel → (∀ j, j < k → stepOutcome (resp (i + j)) = none) →
    stepOutcome (resp (i + k)) = some r →
    pollLoop t resp ticket ftok i fuel =
      (List.replicate (k + 1)
        (Ev.queryExportRequest ticket ftok (get_headers t)), r) := by
  intro k
  induction k with
  | zero =>
    intro fuel i r hk _ hstep
    cases fuel with
    | zero => exact absurd hk (Nat.lt_irrefl 0)
    | succ f =>
      rw [Nat.add_zero] at hstep
      simp [pollLoop, hstep]
  | succ k ih =>
    intro fuel i r hk hnone hstep
    cases fuel with
    | zero => exact absurd hk (Nat.not_lt_zero _)
    | succ f =>
      have h0 : stepOutcome (resp i) = none := by
        have := hnone 0 (Nat.succ_pos k)
        simpa using this
      simp only [pollLoop, h0]
      rw [ih f (i + 1) r (Nat.lt_of_succ_lt_succ hk)
        (fun j hj => by
          have h2 := hnone (j + 1) (Nat.succ_lt_succ hj)
          have e : i + (j + 1) = i + 1 + j := by omega
          rwa [e] at h2)
        (by
          have e : i + (k + 1) = i + 1 + k := by omega
          rwa [e] at hstep)]
      simp [List.replicate_succ]

/-- C6: the poll loop of `query_export_task` always terminates.  It issues
at most `maxWait` status requests (one per one-second interval, the fuel);
if every response within the window still reports "processing" it raises
the timeout error after exactly `maxWait` requests; and as soon as a
response is terminal (success or failed job) it stops there with that
outcome.  The default window is 60 seconds. -/
theorem C6_poll_loop_bounded (t : String) (resp : Nat → PollResp)
    (ticket ftok : String) (maxWait : Nat) :
    defaultMaxWait = 60 ∧
    (query_export_task t resp ticket ftok maxWait).1.length ≤ maxWait ∧
    ((∀ i, i < maxWait → stepOutcome (resp i) = none) →
      query_export_task t resp ticket ftok maxWait =
        (List.replicate maxWait
          (Ev.queryExportRequest ticket ftok (get_headers t)),
         .error "Export task timed out")) ∧
    (∀ i r, i < maxWait → (∀ j, j < i → stepOutcome (resp j) = none) →
      stepOutcome (resp i) = some r →
      query_export_task t resp ticket ftok maxWait =
        (List.replicate (i + 1)
          (Ev.queryExportRequest ticket ftok (get_headers t)), r)) := by
  refine ⟨rfl, pollLoop_len_le t resp ticket ftok maxWait 0, ?_, ?_⟩
  · intro h
    exact pollLoop_all_none t resp ticket ftok maxWait 0
      (fun j hj => by simpa using h j hj)
  · intro i r hi hnone hstep
    exact pollLoop_terminal t resp ticket ftok i maxWait 0 r hi
      (fun j hj => by simpa using hnone j hj) (by simpa using hstep)

/-- Witness for C6: a job that succeeds on the first poll, and a job that
never finishes within a 3-second window. -/
theorem C6_poll_loop_bounded_witness :
    query_export_task "tk" (fun _ =>
        PollResp.mk 0 "" (some 0) (some "etok") none none) "tic" "ft" 60 =
      ([Ev.queryExportRequest "tic" "ft" (get_headers "tk")],
       .ok (some "etok")) ∧
    query_export_task "tk" (fun _ =>
        PollResp.mk 0 "" (some 1) none none none) "tic" "ft" 3 =
      (List.replicate 3 (Ev.queryExportRequest "tic" "ft" (get_headers "tk")),
       .error "Export task timed out") := by
  constructor
  · have h := (C6_poll_loop_bounded "tk" (fun _ =>
        PollResp.mk 0 "" (some 0) (some "etok") none none) "tic" "ft" 60).2.2.2
        0 (.ok (some "etok")) (by decide) (fun j hj => absurd hj (Nat.not_lt_zero j))
        rfl
    simpa using h
  · exact (C6_poll_loop_bounded "tk" (fun _ =>
        PollResp.mk 0 "" (some 1) none none none) "tic" "ft" 3).2.2.1
      (fun i _ => rfl)

/-! ## C4: the paging loop of list_files_in_folder -/

theorem chainFiles_eq_flatten (srv : Option String → ListResp) :
    ∀ n j, chainFiles srv j n =
      ((List.range (n + 1)).map (fun m => (pageAt srv (j + m)).files)).flatten := by
  intro n
  induction n with
  | zero => intro j; simp [chainFiles, List.range_succ]
  | succ n ih =>
    intro j
    have hcf : chainFiles srv j (n + 1) =
        (pageAt srv j).files ++ chainFiles srv (j + 1) n := rfl
    have hmap : (List.range (n + 1)).map
          ((fun m => (pageAt srv (j + m)).files) ∘ Nat.succ)
        = (List.range (n + 1)).map (fun m => (pageAt srv (j + 1 + m)).files) := by
      apply List.map_congr_left
      intro m _
      show (pageAt srv (j + Nat.succ m)).files = (pageAt srv (j + 1 + m)).files
      have e : j + Nat.succ m = j + 1 + m := by omega
      rw [e]
    rw [hcf, ih (j + 1)]
    conv_rhs => rw [List.range_succ_eq_map, List.map_cons, List.map_map, hmap,
      List.flatten_cons]
    rfl

theorem list_files_aux_chain (t : String) (srv : Option String → ListResp)
    (ftok : String) :
    ∀ n j fuel, n < fuel →
    (∀ m, m ≤ n → (pageAt srv (j + m)).code = 0) →
    (∀ m, m < n → (pageAt srv (j + m)).has_more = true) →
    (pageAt srv (j + n)).has_more = false →
    list_files_aux t srv ftok fuel (chainTok srv j) =
      (chainReqs srv t ftok j n, .ok (chainFiles srv j n)) := by
  intro n
  induction n with
  | zero =>
    intro j fuel hf hcode hmore hlast
    cases fuel with
    | zero => omega
    | succ f =>
      have hc : (srv (reqTok (chainTok srv j))).code = 0 := by
        simpa [pageAt] using hcode 0 (Nat.le_refl 0)
      have hm : (srv (reqTok (chainTok srv j))).has_more = false := by
        simpa [pageAt] using hlast
      simp only [list_files_aux]
      rw [if_neg (by simp [hc]), if_neg (by simp [hm])]
      simp [chainReqs, chainFiles, pageAt]
  | succ n ih =>
    intro j fuel hf hcode hmore hlast
    cases fuel with
    | zero => omega
    | succ f =>
      have hc : (srv (reqTok (chainTok srv j))).code = 0 := by
        simpa [pageAt] using hcode 0 (Nat.zero_le _)
      have hm : (srv (reqTok (chainTok srv j))).has_more = true := by
        simpa [pageAt] using hmore 0 (Nat.succ_pos n)
      simp only [list_files_aux]
      rw [if_neg (by simp [hc]), if_pos hm]
      have hnext : (srv (reqTok (chainTok srv j))).page_token =
          chainTok srv (j + 1) := rfl
      rw [hnext]
      rw [ih (j + 1) f (by omega)
        (fun m hm2 => by
          have h2 := hcode (m + 1) (by omega)
          have e : j + (m + 1) = j + 1 + m := by omega
          rwa [e] at h2)
        (fun m hm2 => by
          have h2 := hmore (m + 1) (by omega)
          have e : j + (m + 1) = j + 1 + m := by omega
          rwa [e] at h2)
        (by
          have e : j + (n + 1) = j + 1 + n := by omega
          rwa [e] at hlast)]
      simp [chainReqs, chainFiles, pageAt, Except.map]

/-- C4: when the server's page chain reaches a page with `has_more = false`
after `n` hops (all pages well-formed), `list_files_in_folder` issues
exactly the requests of the chain, each with page size 50, the previous
response's `page_token` (omitted while empty) and the bearer header, stops
at that final page, and returns the concatenation of the `files` of every
page in order. -/
theorem C4_paging_concatenates (t : String) (srv : Option String → ListResp)
    (ftok : String) (n fuel : Nat) (hfuel : n < fuel)
    (hcode : ∀ m, m ≤ n → (pageAt srv m).code = 0)
    (hmore : ∀ m, m < n → (pageAt srv m).has_more = true)
    (hlast : (pageAt srv n).has_more = false) :
    list_files_in_folder t srv ftok fuel =
      (chainReqs srv t ftok 0 n, .ok (chainFiles srv 0 n)) ∧
    chainFiles srv 0 n =
      ((List.range (n + 1)).map (fun m => (pageAt srv m).files)).flatten := by
  constructor
  · have h := list_files_aux_chain t srv ftok n 0 fuel hfuel
      (fun m hm => by simpa using hcode m hm)
      (fun m hm => by simpa using hmore m hm)
      (by simpa using hlast)
    simpa [list_files_in_folder, chainTok] using h
  · have h := chainFiles_eq_flatten srv n 0
    simpa using h

/-- Witness for C4 on the concrete two-page server: three items come back
in page order, via two requests. -/
theorem C4_paging_concatenates_witness :
    list_files_in_folder "tk" srvTwoPages "fd" 2 =
      ([Ev.listRequest "fd" 50 none (get_headers "tk"),
        Ev.listRequest "fd" 50 (some "p1") (get_headers "tk")],
       .ok ["a", "b", "c"]) := by
  have h := (C4_paging_concatenates "tk" srvTwoPages "fd" 1 2 (by omega)
    (fun m hm => by interval_cases m <;> rfl)
    (fun m hm => by interval_cases m <;> rfl)
    rfl).1
  rw [h]
  rfl

/-! ## Event-shape lemmas for the workflows -/

theorem pollLoop_mem (t : String) (resp : Nat → PollResp) (ticket ftok : String) :
    ∀ fuel i ev, ev ∈ (pollLoop t resp ticket ftok i fuel).1 →
      ev = .queryExportRequest ticket ftok (get_headers t) := by
  intro fuel
  induction fuel with
  | zero => intro i ev hev; simp [pollLoop] at hev
  | succ f ih =>
    intro i ev hev
    simp only [pollLoop] at hev
    cases h : stepOutcome (resp i) with
    | some r =>
      rw [h] at hev
      simpa using hev
    | none =>
      rw [h] at hev
      simp only [List.mem_cons] at hev
      rcases hev with rfl | hev
      · rfl
      · exact ih (i + 1) ev hev

theorem directFlow_mem (t : String) (env : Env) (ftok : String)
    (path : List String) :
    ∀ ev ∈ (directFlow t env ftok path).1,
      isExportReq ev = false ∧ isAuthReq ev = false ∧ mkdirPathOf ev = none ∧
      ∀ h, hdrVal ev = some h → h = get_headers t := by
  intro ev hev
  cases hd : env.downloadUrl ftok with
  | error e =>
    simp [directFlow, hd] at hev
    subst hev
    simp [isExportReq, isAuthReq, mkdirPathOf, hdrVal]
  | ok url =>
    cases hf : env.fetch url with
    | error e =>
      simp [directFlow, hd, hf] at hev
      rcases hev with rfl | rfl <;>
        simp [isExportReq, isAuthReq, mkdirPathOf, hdrVal]
    | ok u =>
      simp [directFlow, hd, hf] at hev
      rcases hev with rfl | rfl | rfl <;>
        simp [isExportReq, isAuthReq, mkdirPathOf, hdrVal]

theorem exportFlow_mem (t : String) (env : Env) (ftok ty : String)
    (ext : List Char) (path : List String) :
    ∀ ev ∈ (exportFlow t env ftok ty ext path).1,
      isDirectReq ev = false ∧ isAuthReq ev = false ∧ mkdirPathOf ev = none ∧
      ∀ h, hdrVal ev = some h → h = get_headers t := by
  intro ev hev
  have hpoll : ∀ tic ev2, ev2 ∈ (query_export_task t (env.poll tic) tic ftok
      defaultMaxWait).1 → ev2 = Ev.queryExportRequest tic ftok (get_headers t) :=
    fun tic ev2 h2 => pollLoop_mem t (env.poll tic) tic ftok defaultMaxWait 0 ev2 h2
  cases hc : env.createExport ftok ty (extApiOf ty ext) with
  | error e =>
    simp [exportFlow, hc] at hev
    subst hev
    simp [isDirectReq, isAuthReq, mkdirPathOf, hdrVal]
  | ok ticket =>
    cases hq : (query_export_task t (env.poll ticket) ticket ftok defaultMaxWait).2 with
    | error e =>
      simp [exportFlow, hc, hq] at hev
      rcases hev with rfl | hev
      · simp [isDirectReq, isAuthReq, mkdirPathOf, hdrVal]
      · have := hpoll ticket ev hev
        subst this
        simp [isDirectReq, isAuthReq, mkdirPathOf, hdrVal]
    | ok etok =>
      cases hfx : env.fetchExport etok with
      | error e =>
        simp [exportFlow, hc, hq, hfx] at hev
        rcases hev with rfl | hev | rfl
        · simp [isDirectReq, isAuthReq, mkdirPathOf, hdrVal]
        · have := hpoll ticket ev hev
          subst this
          simp [isDirectReq, isAuthReq, mkdirPathOf, hdrVal]
        · simp [isDirectReq, isAuthReq, mkdirPathOf, hdrVal]
      | ok u =>
        simp [exportFlow, hc, hq, hfx] at hev
        rcases hev with rfl | hev | rfl | rfl
        · simp [isDirectReq, isAuthReq, mkdirPathOf, hdrVal]
        · have := hpoll ticket ev hev
          subst this
          simp [isDirectReq, isAuthReq, mkdirPathOf, hdrVal]
        · simp [isDirectReq, isAuthReq, mkdirPathOf, hdrVal]
        · simp [isDirectReq, isAuthReq, mkdirPathOf, hdrVal]

theorem directFlow_head (t : String) (env : Env) (ftok : String)
    (path : List String) :
    ∃ rest, (directFlow t env ftok path).1 =
      Ev.downloadUrlRequest ftok (get_headers t) :: rest := by
  cases hd : env.downloadUrl ftok with
  | error e =>
    refine ⟨[], ?_⟩
    simp [directFlow, hd]
  | ok url =>
    cases hf : env.fetch url with
    | error e =>
      refine ⟨[.rawDownload url], ?_⟩
      simp [directFlow, hd, hf]
    | ok u =>
      refine ⟨[.rawDownload url, .writeLocal path], ?_⟩
      simp [directFlow, hd, hf]

theorem exportFlow_head (t : String) (env : Env) (ftok ty : String)
    (ext : List Char) (path : List String) :
    ∃ rest, (exportFlow t env ftok ty ext path).1 =
      Ev.createExportRequest ftok ty (extApiOf ty ext) (get_headers t) :: rest := by
  cases hc : env.createExport ftok ty (extApiOf ty ext) with
  | error e =>
    refine ⟨[], ?_⟩
    simp [exportFlow, hc]
  | ok ticket =>
    cases hq : (query_export_task t (env.poll ticket) ticket ftok defaultMaxWait).2 with
    | error e =>
      refine ⟨(query_export_task t (env.poll ticket) ticket ftok defaultMaxWait).1, ?_⟩
      simp [exportFlow, hc, hq]
    | ok etok =>
      cases hfx : env.fetchExport etok with
      | error e =>
        refine ⟨(query_export_task t (env.poll ticket) ticket ftok defaultMaxWait).1 ++
          [.exportDownloadRequest etok (get_headers t)], ?_⟩
        simp [exportFlow, hc, hq, hfx]
      | ok u =>
        refine ⟨(query_export_task t (env.poll ticket) ticket ftok defaultMaxWait).1 ++
          [.exportDownloadRequest etok (get_headers t), .writeLocal path], ?_⟩
        simp [exportFlow, hc, hq, hfx]

/-! ## Unfolding lemmas for process_file -/

theorem process_file_folder (t : String) (env : Env) (dir : List String)
    (n tok : String) (ch : List Item) :
    process_file t env dir (.mk n "folder" tok ch) =
      Ev.printProcessing (sanitize_filename n) "folder" ::
      Ev.mkdirDir (dir ++ [sanitize_filename n]) ::
        (if env.listOk tok then
          Ev.listRequest tok 50 none (get_headers t) ::
            process_list t env (dir ++ [sanitize_filename n]) ch
        else
          [Ev.listRequest tok 50 none (get_headers t),
           Ev.printError "Error processing folder"]) := by
  simp [process_file]

theorem process_file_nonfolder (t : String) (env : Env) (dir : List String)
    (n ty tok : String) (ch : List Item) (hf : ty ≠ "folder") :
    process_file t env dir (.mk n ty tok ch) =
      Ev.printProcessing (sanitize_filename n) ty ::
        (match (downloadStep t env dir n ty tok).2 with
         | none => (downloadStep t env dir n ty tok).1
         | some e => (downloadStep t env dir n ty tok).1 ++
             [Ev.printError ("Error processing file: " ++ e)]) := by
  simp only [process_file, if_neg hf]

theorem process_file_head (t : String) (env : Env) (dir : List String)
    (n ty tok : String) (ch : List Item) :
    ∃ rest, process_file t env dir (.mk n ty tok ch) =
      Ev.printProcessing (sanitize_filename n) ty :: rest := by
  by_cases hf : ty = "folder"
  · subst hf
    exact ⟨_, process_file_folder t env dir n tok ch⟩
  · exact ⟨_, process_file_nonfolder t env dir n ty tok ch hf⟩

theorem downloadStep_mem (t : String) (env : Env) (dir : List String)
    (n ty tok : String) :
    ∀ ev ∈ (downloadStep t env dir n ty tok).1,
      isAuthReq ev = false ∧ mkdirPathOf ev = none ∧
      ∀ h, hdrVal ev = some h → h = get_headers t := by
  intro ev hev
  simp only [downloadStep] at hev
  set ext := extensionFor ty (sanitize_filename n).data with hext
  set path := dir ++ [(⟨finalFileName ty (sanitize_filename n).data⟩ : String)]
    with hpath
  by_cases hdoc : strToLower ty ∈ docTypes
  · rw [if_pos hdoc] at hev
    have h2 := exportFlow_mem t env tok ty ext path ev hev
    exact ⟨h2.2.1, h2.2.2.1, h2.2.2.2⟩
  · rw [if_neg hdoc] at hev
    by_cases hbin : ty ∈ binTypes
    · rw [if_pos hbin] at hev
      have h2 := directFlow_mem t env tok path ev hev
      exact ⟨h2.2.1, h2.2.2.1, h2.2.2.2⟩
    · rw [if_neg hbin] at hev
      cases hd2 : (directFlow t env tok path).2 with
      | none =>
        rw [hd2] at hev
        simp only [] at hev
        have h2 := directFlow_mem t env tok path ev hev
        exact ⟨h2.2.1, h2.2.2.1, h2.2.2.2⟩
      | some e =>
        rw [hd2] at hev
        cases hx2 : (exportFlow t env tok ty ext path).2 with
        | none =>
          rw [hx2] at hev
          simp only [List.append_nil, List.mem_append, List.mem_cons] at hev
          casesm* _ ∨ _
          all_goals first
            | (subst_vars
               simp [isAuthReq, mkdirPathOf, hdrVal]
               done)
            | (rename_i hx
               first
                | (have h2 := directFlow_mem t env tok path ev hx
                   exact ⟨h2.2.1, h2.2.2.1, h2.2.2.2⟩)
                | (have h2 := exportFlow_mem t env tok ty ext path ev hx
                   exact ⟨h2.2.1, h2.2.2.1, h2.2.2.2⟩))
        | some e2 =>
          rw [hx2] at hev
          simp only [List.mem_append, List.mem_cons, List.not_mem_nil,
            or_false] at hev
          casesm* _ ∨ _
          all_goals first
            | (subst_vars
               simp [isAuthReq, mkdirPathOf, hdrVal]
               done)
            | (rename_i hx
               first
                | (have h2 := directFlow_mem t env tok path ev hx
                   exact ⟨h2.2.1, h2.2.2.1, h2.2.2.2⟩)
                | (have h2 := exportFlow_mem t env tok ty ext path ev hx
                   exact ⟨h2.2.1, h2.2.2.1, h2.2.2.2⟩))

theorem downloadStep_no_mkdir (t : String) (env : Env) (dir : List String)
    (n ty tok : String) :
    (downloadStep t env dir n ty tok).1.filterMap mkdirPathOf = [] := by
  rw [List.filterMap_eq_nil_iff]
  intro ev hev
  exact (downloadStep_mem t env dir n ty tok ev hev).2.1

/-! ## Trace invariants of the recursive walk -/

mutual

theorem process_file_mem (t : String) (env : Env) :
    ∀ (dir : List String) (it : Item), ∀ ev ∈ process_file t env dir it,
      isAuthReq ev = false ∧ ∀ h, hdrVal ev = some h → h = get_headers t
  | dir, .mk n ty tok ch => by
    intro ev hev
    by_cases hf : ty = "folder"
    · subst hf
      rw [process_file_folder] at hev
      by_cases hok : env.listOk tok
      · rw [if_pos hok] at hev
        simp only [List.mem_cons] at hev
        casesm* _ ∨ _
        all_goals first
          | (subst_vars
             simp [isAuthReq, hdrVal]
             done)
          | (rename_i hx
             exact process_list_mem t env (dir ++ [sanitize_filename n]) ch ev hx)
      · rw [if_neg hok] at hev
        simp only [List.mem_cons, List.not_mem_nil, or_false] at hev
        casesm* _ ∨ _
        all_goals
          subst_vars
          simp [isAuthReq, hdrVal]
    · rw [process_file_nonfolder t env dir n ty tok ch hf] at hev
      cases hs : (downloadStep t env dir n ty tok).2 with
      | none =>
        rw [hs] at hev
        simp only [List.mem_cons] at hev
        rcases hev with rfl | hev
        · simp [isAuthReq, hdrVal]
        · have h2 := downloadStep_mem t env dir n ty tok ev hev
          exact ⟨h2.1, h2.2.2⟩
      | some e =>
        rw [hs] at hev
        simp only [List.mem_cons, List.mem_append, List.not_mem_nil,
          or_false] at hev
        casesm* _ ∨ _
        all_goals first
          | (subst_vars
             simp [isAuthReq, hdrVal]
             done)
          | (rename_i hx
             have h2 := downloadStep_mem t env dir n ty tok ev hx
             exact ⟨h2.1, h2.2.2⟩)

theorem process_list_mem (t : String) (env : Env) :
    ∀ (dir : List String) (its : List Item), ∀ ev ∈ process_list t env dir its,
      isAuthReq ev = false ∧ ∀ h, hdrVal ev = some h → h = get_headers t
  | _, [] => by
    intro ev hev
    simp [process_list] at hev
  | dir, it :: rest => by
    intro ev hev
    simp only [process_list, List.mem_append] at hev
    rcases hev with hev | hev
    · exact process_file_mem t env dir it ev hev
    · exact process_list_mem t env dir rest ev hev

end

mutual

theorem process_file_mkdirs (t : String) (env : Env)
    (hok : ∀ tk, env.listOk tk = true) :
    ∀ (dir : List String) (it : Item),
      (process_file t env dir it).filterMap mkdirPathOf = folderPaths dir it
  | dir, .mk n ty tok ch => by
    by_cases hf : ty = "folder"
    · subst hf
      rw [process_file_folder, hok tok, if_pos rfl]
      simp only [List.filterMap_cons, mkdirPathOf]
      rw [process_list_mkdirs t env hok (dir ++ [sanitize_filename n]) ch]
      simp [folderPaths]
    · rw [process_file_nonfolder t env dir n ty tok ch hf]
      cases hs : (downloadStep t env dir n ty tok).2 with
      | none =>
        simp only [List.filterMap_cons, mkdirPathOf]
        rw [downloadStep_no_mkdir]
        simp [folderPaths, hf]
      | some e =>
        simp only [List.filterMap_cons, List.filterMap_append, mkdirPathOf]
        rw [downloadStep_no_mkdir]
        simp [folderPaths, hf, mkdirPathOf]

theorem process_list_mkdirs (t : String) (env : Env)
    (hok : ∀ tk, env.listOk tk = true) :
    ∀ (dir : List String) (its : List Item),
      (process_list t env dir its).filterMap mkdirPathOf =
        folderPathsList dir its
  | _, [] => by
    simp [process_list, folderPathsList]
  | dir, it :: rest => by
    simp only [process_list, List.filterMap_append]
    rw [process_file_mkdirs t env hok dir it,
      process_list_mkdirs t env hok dir rest]
    simp [folderPathsList]

end

/-! ## Routing lemmas: which workflow handles which file type -/

theorem directFlow_success (t : String) (env : Env) (ftok : String)
    (path : List String) (url : String)
    (hd : env.downloadUrl ftok = .ok url) (hf2 : env.fetch url = .ok ()) :
    directFlow t env ftok path =
      ([.downloadUrlRequest ftok (get_headers t), .rawDownload url,
        .writeLocal path], none) := by
  simp [directFlow, hd, hf2]

theorem exportFlow_success (t : String) (env : Env) (ftok ty : String)
    (ext : List Char) (path : List String) (ticket : String)
    (etok : Option String)
    (hc : env.createExport ftok ty (extApiOf ty ext) = .ok ticket)
    (hp : stepOutcome (env.poll ticket 0) = some (.ok etok))
    (hx : env.fetchExport etok = .ok ()) :
    exportFlow t env ftok ty ext path =
      ([.createExportRequest ftok ty (extApiOf ty ext) (get_headers t),
        .queryExportRequest ticket ftok (get_headers t),
        .exportDownloadRequest etok (get_headers t),
        .writeLocal path], none) := by
  have hq : query_export_task t (env.poll ticket) ticket ftok defaultMaxWait =
      ([.queryExportRequest ticket ftok (get_headers t)], .ok etok) := by
    have h := pollLoop_terminal t (env.poll ticket) ticket ftok 0
      defaultMaxWait 0 (.ok etok) (by decide)
      (fun j hj => absurd hj (Nat.not_lt_zero j)) (by simpa using hp)
    simpa [query_export_task, List.replicate] using h
  simp [exportFlow, hc, hq, hx]

theorem routing_doc (t : String) (env : Env) (dir : List String)
    (n ty tok : String) (ch : List Item) (hdoc : strToLower ty ∈ docTypes) :
    (process_file t env dir (.mk n ty tok ch)).any isExportReq = true ∧
    (process_file t env dir (.mk n ty tok ch)).any isDirectReq = false := by
  have hf : ty ≠ "folder" := by
    intro h
    subst h
    exact absurd hdoc (by decide)
  rw [process_file_nonfolder t env dir n ty tok ch hf]
  set ext := extensionFor ty (sanitize_filename n).data with hext
  set path := dir ++ [(⟨finalFileName ty (sanitize_filename n).data⟩ : String)]
    with hpath
  have hstep : downloadStep t env dir n ty tok =
      exportFlow t env tok ty ext path := by
    simp only [downloadStep, if_pos hdoc]
  rw [hstep]
  obtain ⟨rest, hr⟩ := exportFlow_head t env tok ty ext path
  constructor
  · rw [List.any_eq_true]
    refine ⟨.createExportRequest tok ty (extApiOf ty ext) (get_headers t),
      ?_, by simp [isExportReq]⟩
    cases hx : (exportFlow t env tok ty ext path).2 with
    | none => simp [hr]
    | some e => simp [hr]
  · rw [List.any_eq_false]
    intro ev hev
    simp only [List.mem_cons] at hev
    rcases hev with rfl | hev
    · simp [isDirectReq]
    · cases hx : (exportFlow t env tok ty ext path).2 with
      | none =>
        rw [hx] at hev
        simp only [] at hev
        simp [(exportFlow_mem t env tok ty ext path ev hev).1]
      | some e =>
        rw [hx] at hev
        simp only [List.mem_append, List.mem_cons, List.not_mem_nil,
          or_false] at hev
        rcases hev with hev | rfl
        · simp [(exportFlow_mem t env tok ty ext path ev hev).1]
        · simp [isDirectReq]

theorem routing_bin (t : String) (env : Env) (dir : List String)
    (n ty tok : String) (ch : List Item) (hbin : ty ∈ binTypes) :
    (process_file t env dir (.mk n ty tok ch)).any isDirectReq = true ∧
    (process_file t env dir (.mk n ty tok ch)).any isExportReq = false := by
  have hf : ty ≠ "folder" := by
    intro h
    subst h
    exact absurd hbin (by decide)
  have hdoc : strToLower ty ∉ docTypes := by
    revert hbin
    unfold binTypes
    intro hbin
    fin_cases hbin <;> decide
  rw [process_file_nonfolder t env dir n ty tok ch hf]
  set path := dir ++ [(⟨finalFileName ty (sanitize_filename n).data⟩ : String)]
    with hpath
  have hstep : downloadStep t env dir n ty tok =
      directFlow t env tok path := by
    simp only [downloadStep, if_neg hdoc, if_pos hbin]
  rw [hstep]
  obtain ⟨rest, hr⟩ := directFlow_head t env tok path
  constructor
  · rw [List.any_eq_true]
    refine ⟨.downloadUrlRequest tok (get_headers t), ?_, by simp [isDirectReq]⟩
    cases hx : (directFlow t env tok path).2 with
    | none => simp [hr]
    | some e => simp [hr]
  · rw [List.any_eq_false]
    intro ev hev
    simp only [List.mem_cons] at hev
    rcases hev with rfl | hev
    · simp [isExportReq]
    · cases hx : (directFlow t env tok path).2 with
      | none =>
        rw [hx] at hev
        simp only [] at hev
        simp [(directFlow_mem t env tok path ev hev).1]
      | some e =>
        rw [hx] at hev
        simp only [List.mem_append, List.mem_cons, List.not_mem_nil,
          or_false] at hev
        rcases hev with hev | rfl
        · simp [(directFlow_mem t env tok path ev hev).1]
        · simp [isExportReq]

theorem routing_unknown (t : String) (env : Env) (dir : List String)
    (n ty tok : String) (ch : List Item) (hf : ty ≠ "folder")
    (hdoc : strToLower ty ∉ docTypes) (hbin : ty ∉ binTypes) :
    (process_file t env dir (.mk n ty tok ch)).any isDirectReq = true ∧
    (∀ url, env.downloadUrl tok = .ok url → env.fetch url = .ok () →
      (process_file t env dir (.mk n ty tok ch)).any isExportReq = false) := by
  rw [process_file_nonfolder t env dir n ty tok ch hf]
  set path := dir ++ [(⟨finalFileName ty (sanitize_filename n).data⟩ : String)]
    with hpath
  set ext := extensionFor ty (sanitize_filename n).data with hext
  constructor
  · cases hd2 : (directFlow t env tok path).2 with
    | none =>
      have hstep : downloadStep t env dir n ty tok =
          ((directFlow t env tok path).1, none) := by
        simp only [downloadStep, if_neg hdoc, if_neg hbin, hd2]
      rw [hstep]
      simp only []
      obtain ⟨r0, hr0⟩ := directFlow_head t env tok path
      rw [hr0]
      simp [isDirectReq]
    | some e =>
      have hstep : downloadStep t env dir n ty tok =
          ((directFlow t env tok path).1 ++
            Ev.printError ("Failed to download using download API: " ++ e) ::
            (exportFlow t env tok ty ext path).1 ++
            (match (exportFlow t env tok ty ext path).2 with
             | some e2 => [Ev.printError ("Export task also failed: " ++ e2)]
             | none => []), none) := by
        simp only [downloadStep, if_neg hdoc, if_neg hbin, hd2]
      rw [hstep]
      simp only []
      obtain ⟨r0, hr0⟩ := directFlow_head t env tok path
      rw [hr0]
      simp [isDirectReq]
  · intro url hd hf2
    have hflow := directFlow_success t env tok path url hd hf2
    have hstep : downloadStep t env dir n ty tok =
        ((directFlow t env tok path).1, none) := by
      simp only [downloadStep, if_neg hdoc, if_neg hbin, hflow]
    rw [hstep]
    simp only []
    rw [hflow]
    simp [isExportReq]

theorem process_list_mem_processing (t : String) (env : Env)
    (dir : List String) :
    ∀ (items : List Item) (n ty tok : String) (ch : List Item),
      Item.mk n ty tok ch ∈ items →
      Ev.printProcessing (sanitize_filename n) ty ∈
        process_list t env dir items := by
  intro items
  induction items with
  | nil =>
    intro n ty tok ch h
    simp at h
  | cons it rest ih =>
    intro n ty tok ch h
    rcases List.mem_cons.1 h with rfl | h2
    · obtain ⟨r, hr⟩ := process_file_head t env dir n ty tok ch
      simp only [process_list]
      rw [hr]
      simp
    · simp only [process_list]
      exact List.mem_append_right _ (ih n ty tok ch h2)

/-! ## The claim theorems about process_file and main -/

/-- C1: a non-folder file whose lowercased type is a native document type
is downloaded through the export workflow (and never touches the
direct-download endpoint); a file whose type is exactly one of the opaque
binary types is downloaded through the direct-download endpoint (and never
touches the export endpoints).  When the environment succeeds, the doc
branch issues create, then query, then exported-file download, and the
binary branch issues the download-URL request then the raw download. -/
theorem C1_doc_export_binary_direct (t : String) (env : Env)
    (dir : List String) (n ty tok : String) (ch : List Item)
    (hnf : ty ≠ "folder") :
    (strToLower ty ∈ docTypes →
      (process_file t env dir (.mk n ty tok ch)).any isExportReq = true ∧
      (process_file t env dir (.mk n ty tok ch)).any isDirectReq = false) ∧
    (ty ∈ binTypes →
      (process_file t env dir (.mk n ty tok ch)).any isDirectReq = true ∧
      (process_file t env dir (.mk n ty tok ch)).any isExportReq = false) ∧
    (∀ ticket etok, strToLower ty ∈ docTypes →
      env.createExport tok ty
        (extApiOf ty (extensionFor ty (sanitize_filename n).data)) = .ok ticket →
      stepOutcome (env.poll ticket 0) = some (.ok etok) →
      env.fetchExport etok = .ok () →
      process_file t env dir (.mk n ty tok ch) =
        [.printProcessing (sanitize_filename n) ty,
         .createExportRequest tok ty
           (extApiOf ty (extensionFor ty (sanitize_filename n).data))
           (get_headers t),
         .queryExportRequest ticket tok (get_headers t),
         .exportDownloadRequest etok (get_headers t),
         .writeLocal (dir ++
           [(⟨finalFileName ty (sanitize_filename n).data⟩ : String)])]) ∧
    (∀ url, ty ∈ binTypes →
      env.downloadUrl tok = .ok url → env.fetch url = .ok () →
      process_file t env dir (.mk n ty tok ch) =
        [.printProcessing (sanitize_filename n) ty,
         .downloadUrlRequest tok (get_headers t),
         .rawDownload url,
         .writeLocal (dir ++
           [(⟨finalFileName ty (sanitize_filename n).data⟩ : String)])]) := by
  refine ⟨fun hdoc => routing_doc t env dir n ty tok ch hdoc,
    fun hbin => routing_bin t env dir n ty tok ch hbin, ?_, ?_⟩
  · intro ticket etok hdoc hc hp hx
    rw [process_file_nonfolder t env dir n ty tok ch hnf]
    have hstep : downloadStep t env dir n ty tok =
        exportFlow t env tok ty (extensionFor ty (sanitize_filename n).data)
          (dir ++ [(⟨finalFileName ty (sanitize_filename n).data⟩ : String)]) := by
      simp only [downloadStep, if_pos hdoc]
    rw [hstep, exportFlow_success t env tok ty
      (extensionFor ty (sanitize_filename n).data)
      (dir ++ [(⟨finalFileName ty (sanitize_filename n).data⟩ : String)])
      ticket etok hc hp hx]
  · intro url hbin hd hf2
    have hdoc : strToLower ty ∉ docTypes := by
      revert hbin
      unfold binTypes
      intro hbin
      fin_cases hbin <;> decide
    rw [process_file_nonfolder t env dir n ty tok ch hnf]
    have hstep : downloadStep t env dir n ty tok =
        directFlow t env tok
          (dir ++ [(⟨finalFileName ty (sanitize_filename n).data⟩ : String)]) := by
      simp only [downloadStep, if_neg hdoc, if_pos hbin]
    rw [hstep, directFlow_success t env tok
      (dir ++ [(⟨finalFileName ty (sanitize_filename n).data⟩ : String)])
      url hd hf2]

/-- Witness for C1: a `docx` file under the all-success environment is
exported, a `jpg` file is downloaded directly. -/
theorem C1_doc_export_binary_direct_witness :
    process_file "tok" envOk [] (.mk "r" "docx" "ft" []) =
      [.printProcessing "r" "docx",
       .createExportRequest "ft" "docx" "docx" (get_headers "tok"),
       .queryExportRequest "tic" "ft" (get_headers "tok"),
       .exportDownloadRequest (some "etok") (get_headers "tok"),
       .writeLocal [("r.docx" : String)]] ∧
    process_file "tok" envOk [] (.mk "p" "jpg" "ft" []) =
      [.printProcessing "p" "jpg",
       .downloadUrlRequest "ft" (get_headers "tok"),
       .rawDownload "u1",
       .writeLocal [("p.jpg" : String)]] := by
  constructor
  · have h := (C1_doc_export_binary_direct "tok" envOk [] "r" "docx" "ft" []
      (by decide)).2.2.1 "tic" (some "etok") (by decide) rfl rfl rfl
    rw [h]
    rfl
  · have h := (C1_doc_export_binary_direct "tok" envOk [] "p" "jpg" "ft" []
      (by decide)).2.2.2 "u1" (by decide) rfl rfl
    rw [h]
    rfl

/-- C2 counterexample: the claim "process_file invokes exactly one of the
two download workflows, never both for the same file" fails for a `txt`
file (a type in neither branch list) whose direct download fails: the
trace contains both the direct-download request and the export-task
creation request. -/
theorem C2_counterexample_both_workflows :
    (process_file "tok" envDirectFail [] (.mk "a" "txt" "ft" [])).any
      isDirectReq = true ∧
    (process_file "tok" envDirectFail [] (.mk "a" "txt" "ft" [])).any
      isExportReq = true := by
  decide

/-- C2 (amended): a non-folder file whose type is recognized (lowercased
native document type, or exact binary type) triggers exactly one of the
two workflows; for an unrecognized type the direct download is attempted
first and the export triplet is invoked only when that attempt fails (so
with a succeeding direct download only the direct workflow runs). -/
theorem C2_one_workflow_when_recognized (t : String) (env : Env)
    (dir : List String) (n ty tok : String) (ch : List Item)
    (hnf : ty ≠ "folder") :
    ((strToLower ty ∈ docTypes ∨ ty ∈ binTypes) →
      ((process_file t env dir (.mk n ty tok ch)).any isExportReq = true ∧
       (process_file t env dir (.mk n ty tok ch)).any isDirectReq = false) ∨
      ((process_file t env dir (.mk n ty tok ch)).any isDirectReq = true ∧
       (process_file t env dir (.mk n ty tok ch)).any isExportReq = false)) ∧
    (strToLower ty ∉ docTypes → ty ∉ binTypes →
      (process_file t env dir (.mk n ty tok ch)).any isDirectReq = true ∧
      (∀ url, env.downloadUrl tok = .ok url → env.fetch url = .ok () →
        (process_file t env dir (.mk n ty tok ch)).any isExportReq = false)) := by
  constructor
  · intro hrec
    by_cases hdoc : strToLower ty ∈ docTypes
    · exact .inl (routing_doc t env dir n ty tok ch hdoc)
    · rcases hrec with hrec | hbin
      · exact absurd hrec hdoc
      · exact .inr (routing_bin t env dir n ty tok ch hbin)
  · intro hdoc hbin
    exact routing_unknown t env dir n ty tok ch hnf hdoc hbin

/-- Witness for the amended C2: a `png` file under the all-success
environment uses exactly the direct workflow, and an unknown `txt` file
whose direct download succeeds never invokes the export endpoint. -/
theorem C2_one_workflow_when_recognized_witness :
    ((process_file "tok" envOk [] (.mk "p" "png" "ft" [])).any
        isDirectReq = true ∧
      (process_file "tok" envOk [] (.mk "p" "png" "ft" [])).any
        isExportReq = false) ∧
    (process_file "tok" envOk [] (.mk "a" "txt" "ft" [])).any
      isExportReq = false := by
  constructor
  · have h := ((C2_one_workflow_when_recognized "tok" envOk [] "p" "png" "ft" []
      (by decide)).1 (.inr (by decide)))
    rcases h with h | h
    · exact absurd h.2 (by decide)
    · exact h
  · exact ((C2_one_workflow_when_recognized "tok" envOk [] "a" "txt" "ft" []
      (by decide)).2 (by decide) (by decide)).2 "u1" rfl rfl

/-- C3: a folder item produces the sanitized subdirectory under the current
output directory, the listing request, and the recursive processing of the
children into that subdirectory; over a whole tree (with listings
succeeding), the created directories are exactly one per remote folder
node, mirroring the remote hierarchy. -/
theorem C3_folder_recursion_mirrors (t : String) (env : Env)
    (dir : List String) (n tok : String) (ch : List Item)
    (hok : ∀ tk, env.listOk tk = true) :
    process_file t env dir (.mk n "folder" tok ch) =
      Ev.printProcessing (sanitize_filename n) "folder" ::
      Ev.mkdirDir (dir ++ [sanitize_filename n]) ::
      Ev.listRequest tok 50 none (get_headers t) ::
        process_list t env (dir ++ [sanitize_filename n]) ch ∧
    (∀ (dir2 : List String) (it : Item),
      (process_file t env dir2 it).filterMap mkdirPathOf =
        folderPaths dir2 it) := by
  constructor
  · rw [process_file_folder, hok tok, if_pos rfl]
  · intro dir2 it
    exact process_file_mkdirs t env hok dir2 it

/-- Witness for C3: a folder holding a folder holding a file mirrors into
two nested local directories. -/
theorem C3_folder_recursion_mirrors_witness :
    (process_file "tok" envOk ["out"]
        (.mk "A" "folder" "f1" [.mk "B" "folder" "f2" [.mk "c" "jpg" "f3" []]])
      ).filterMap mkdirPathOf = [["out", "A"], ["out", "A", "B"]] := by
  rw [(C3_folder_recursion_mirrors "tok" envOk ["out"] "A" "f1" []
    (fun tk => rfl)).2 ["out"]
    (.mk "A" "folder" "f1" [.mk "B" "folder" "f2" [.mk "c" "jpg" "f3" []]])]
  decide

/-- C5: an error on one item never aborts the others: whatever the
environment does, every item of a listing keeps its processing step in the
trace of `process_list` (used both by the top-level loop of `main` and by
the folder recursion), and a folder whose listing fails only prints the
error. -/
theorem C5_error_on_item_continues (t : String) (env : Env)
    (dir : List String) (items : List Item) (n ty tok : String)
    (ch : List Item) (hmem : Item.mk n ty tok ch ∈ items) :
    Ev.printProcessing (sanitize_filename n) ty ∈
      process_list t env dir items ∧
    (env.listOk tok = false → ty = "folder" →
      Ev.printError "Error processing folder" ∈
        process_file t env dir (.mk n ty tok ch)) := by
  constructor
  · exact process_list_mem_processing t env dir items n ty tok ch hmem
  · intro hnok hfold
    subst hfold
    rw [process_file_folder, hnok, if_neg (by simp)]
    simp

/-- Witness for C5: with every endpoint failing, both items of a listing
are still processed. -/
theorem C5_error_on_item_continues_witness :
    Ev.printProcessing "b" "txt" ∈
      process_list "tok" envAllFail []
        [.mk "a" "folder" "f1" [], .mk "b" "txt" "f2" []] ∧
    Ev.printError "Error processing folder" ∈
      process_file "tok" envAllFail [] (.mk "a" "folder" "f1" []) := by
  have h := C5_error_on_item_continues "tok" envAllFail []
    [.mk "a" "folder" "f1" [], .mk "b" "txt" "f2" []] "b" "txt" "f2" []
    (List.mem_cons_of_mem _ (List.mem_cons_self _ _))
  have h2 := C5_error_on_item_continues "tok" envAllFail []
    [.mk "a" "folder" "f1" []] "a" "folder" "f1" [] (List.mem_cons_self _ _)
  exact ⟨by simpa using h.1, by simpa using h2.2 rfl rfl⟩

theorem mainRun_ok (env : Env) (ftok : String) (outDir : List String)
    (items : List Item) (t : String) (hauth : env.auth = .ok t) :
    mainRun env ftok outDir items =
      .authRequest :: .mkdirDir outDir ::
        (if env.listOk ftok then
          Ev.listRequest ftok 50 none (get_headers t) ::
            process_list t env outDir items
        else
          [Ev.listRequest ftok 50 none (get_headers t),
           Ev.abortRun "Failed to list files"]) := by
  unfold mainRun
  rw [hauth]

/-- C7: `main` issues the authentication request exactly once, and every
API request of the whole run carries the Authorization header built from
the single token that request returned. -/
theorem C7_token_obtained_once (env : Env) (ftok : String)
    (outDir : List String) (items : List Item) (t : String)
    (hauth : env.auth = .ok t) :
    ((mainRun env ftok outDir items).filter isAuthReq).length = 1 ∧
    (∀ ev ∈ mainRun env ftok outDir items, ∀ h, hdrVal ev = some h →
      h = get_headers t) := by
  have hnil : (process_list t env outDir items).filter isAuthReq = [] := by
    rw [List.filter_eq_nil_iff]
    intro ev hev
    simp [(process_list_mem t env outDir items ev hev).1]
  constructor
  · rw [mainRun_ok env ftok outDir items t hauth]
    by_cases hok : env.listOk ftok
    · rw [if_pos hok]
      simp [List.filter_cons, isAuthReq, hnil]
    · rw [if_neg hok]
      simp [List.filter_cons, isAuthReq]
  · intro ev hev h hh
    rw [mainRun_ok env ftok outDir items t hauth] at hev
    by_cases hok : env.listOk ftok
    · rw [if_pos hok] at hev
      simp only [List.mem_cons] at hev
      rcases hev with rfl | hev
      · simp [hdrVal] at hh
      · rcases hev with rfl | hev
        · simp [hdrVal] at hh
        · rcases hev with rfl | hev
          · simp [hdrVal] at hh
            exact hh.symm
          · exact (process_list_mem t env outDir items ev hev).2 h hh
    · rw [if_neg hok] at hev
      simp only [List.mem_cons, List.not_mem_nil, or_false] at hev
      rcases hev with rfl | hev
      · simp [hdrVal] at hh
      · rcases hev with rfl | hev
        · simp [hdrVal] at hh
        · rcases hev with rfl | rfl
          · simp [hdrVal] at hh
            exact hh.symm
          · simp [hdrVal] at hh

/-- Witness for C7 on a small run: one auth request, and the folder
listing request carries the bearer header of the obtained token. -/
theorem C7_token_obtained_once_witness :
    ((mainRun envOk "fd" ["out"] [.mk "c" "jpg" "ft" []]).filter
      isAuthReq).length = 1 ∧
    "Bearer tok" = get_headers "tok" := by
  have h := C7_token_obtained_once envOk "fd" ["out"]
    [.mk "c" "jpg" "ft" []] "tok" rfl
  exact ⟨h.1, h.2 (Ev.listRequest "fd" 50 none (get_headers "tok"))
    (by decide) "Bearer tok" (by decide)⟩

end Feishu
